import Mathlib

/-!
# Verification of the multi-process IPC file analyzer (`src/parallel.c`)

A shallow embedding of the orchestration core of `parallel.c`:

* the pure `Histogram` function (lines 98-118), over byte buffers modelled
  as `List Nat` of byte values (the program feeds `isalpha`/`tolower` with
  `char` values read from files; we model the C-locale behaviour on the
  byte's value);
* the `SIGCHLD` handler `sigchld` (lines 29-90): per-termination handling
  (pid lookup, pipe read, persisting `file<pid>.hist`, closing the read
  end, the `exit(EXIT_FAILURE)` on output-open failure) and the
  `waitpid`-draining loop;
* the child-process control flow of `main` (lines 141-210), as an action
  trace, including the `"SIG"` branch that falls through into the
  spawning loop when the child survives the interrupt;
* the argument validation of `main` (lines 120-138);
* the shared counters `numChildren` / `numTerminated` as a small-step
  transition system in which the handler may run between any two
  statements of `main` (async-signal interleaving).
-/

/-! ## Histogram engine (`parallel.c` lines 98-118) -/

/-- C-locale `isalpha` on a byte value: `'A'..'Z'` or `'a'..'z'`. -/
def isalpha (c : Nat) : Bool :=
  (65 ≤ c && c ≤ 90) || (97 ≤ c && c ≤ 122)

/-- C-locale `tolower` on a byte value. -/
def tolower (c : Nat) : Nat :=
  if 65 ≤ c && c ≤ 90 then c + 32 else c

/-- One iteration of the counting loop (lines 109-115): if the byte is
alphabetic, normalise case and increment bucket `tolower c - 'a'`. -/
def histStep (h : List Nat) (c : Nat) : List Nat :=
  if isalpha c then h.set (tolower c - 97) (h.getD (tolower c - 97) 0 + 1) else h

/-- `Histogram(Data, Size)` (lines 98-118): 26 buckets initialised to 0
(line 106), then one `histStep` per input byte.  (The `malloc`-failure
return of `NULL` is outside the claims; the spec's engine has
"no error conditions".) -/
def Histogram (Data : List Nat) : List Nat :=
  Data.foldl histStep (List.replicate 26 0)

/-- Number of bytes in `Data` that are letter `'a' + i` in either case. -/
def countLetter (Data : List Nat) (i : Nat) : Nat :=
  Data.countP (fun c => c == 97 + i || c == 65 + i)

/-- Swap the case of a single byte; non-letters are unchanged. -/
def toggleCase (c : Nat) : Nat :=
  if 65 ≤ c && c ≤ 90 then c + 32
  else if 97 ≤ c && c ≤ 122 then c - 32
  else c

theorem histStep_length (h : List Nat) (c : Nat) :
    (histStep h c).length = h.length := by
  unfold histStep; split <;> simp

theorem tolower_of_upper (c : Nat) (h1 : 65 ≤ c) (h2 : c ≤ 90) :
    tolower c = c + 32 := by
  unfold tolower
  rw [if_pos]
  simp only [Bool.and_eq_true, decide_eq_true_eq]
  exact ⟨h1, h2⟩

theorem tolower_of_not_upper (c : Nat) (h : c < 65 ∨ 90 < c) :
    tolower c = c := by
  unfold tolower
  rw [if_neg]
  simp only [Bool.and_eq_true, decide_eq_true_eq, not_and]
  omega

theorem getD_replicate_self (n i d : Nat) :
    (List.replicate n d).getD i d = d := by
  induction n generalizing i with
  | zero => simp [List.getD]
  | succ m ih =>
    cases i with
    | zero => rfl
    | succ j => rw [List.replicate_succ, List.getD_cons_succ]; exact ih j

theorem getD_set_self (l : List Nat) (i : Nat) (v : Nat) (hi : i < l.length) :
    (l.set i v).getD i 0 = v := by
  induction l generalizing i with
  | nil => simp at hi
  | cons a t ih =>
    cases i with
    | zero => simp [List.set]
    | succ n =>
      simp only [List.set, List.getD_cons_succ]
      exact ih n (by simpa using hi)

theorem getD_set_ne (l : List Nat) (i j : Nat) (v : Nat) (hij : i ≠ j) :
    (l.set i v).getD j 0 = l.getD j 0 := by
  induction l generalizing i j with
  | nil => simp [List.set]
  | cons a t ih =>
    cases i with
    | zero =>
      cases j with
      | zero => exact absurd rfl hij
      | succ m => simp [List.set]
    | succ n =>
      cases j with
      | zero => simp [List.set]
      | succ m =>
        simp only [List.set, List.getD_cons_succ]
        exact ih n m (fun h => hij (by omega))

theorem histStep_getD (h : List Nat) (c : Nat) (hlen : h.length = 26)
    (i : Nat) (hi : i < 26) :
    (histStep h c).getD i 0 =
      h.getD i 0 + (if c = 97 + i ∨ c = 65 + i then 1 else 0) := by
  unfold histStep
  by_cases halpha : isalpha c = true
  · simp only [halpha, if_true]
    have hrange : (65 ≤ c ∧ c ≤ 90) ∨ (97 ≤ c ∧ c ≤ 122) := by
      simp [isalpha] at halpha; omega
    have htl : (tolower c = c + 32 ∧ 65 ≤ c ∧ c ≤ 90) ∨
        (tolower c = c ∧ 97 ≤ c ∧ c ≤ 122) := by
      rcases hrange with h1 | h2
      · exact Or.inl ⟨tolower_of_upper c h1.1 h1.2, h1⟩
      · exact Or.inr ⟨tolower_of_not_upper c (by omega), h2⟩
    by_cases heq : tolower c - 97 = i
    · have : c = 97 + i ∨ c = 65 + i := by
        rcases htl with ⟨h, hr⟩ | ⟨h, hr⟩ <;> rw [h] at heq <;> omega
      rw [heq, getD_set_self h i _ (by omega), if_pos this]
    · have : ¬ (c = 97 + i ∨ c = 65 + i) := by
        rcases htl with ⟨h, hr⟩ | ⟨h, hr⟩ <;> rw [h] at heq <;> omega
      rw [getD_set_ne h _ i _ heq, if_neg this]
      omega
  · have : ¬ (c = 97 + i ∨ c = 65 + i) := by
      simp [isalpha] at halpha
      omega
    rw [if_neg (by simpa using halpha), if_neg this]
    omega

theorem getLetterCases (c i : Nat) :
    (c == 97 + i || c == 65 + i) = true ↔ (c = 97 + i ∨ c = 65 + i) := by
  simp

theorem histFold_getD (Data : List Nat) (h : List Nat) (hlen : h.length = 26)
    (i : Nat) (hi : i < 26) :
    (Data.foldl histStep h).getD i 0 = h.getD i 0 + countLetter Data i := by
  induction Data generalizing h with
  | nil => simp [countLetter]
  | cons c t ih =>
    simp only [List.foldl_cons]
    rw [ih (histStep h c) (by rw [histStep_length]; exact hlen)]
    rw [histStep_getD h c hlen i hi]
    unfold countLetter
    rw [List.countP_cons]
    by_cases hc : c = 97 + i ∨ c = 65 + i
    · rw [if_pos hc, if_pos ((getLetterCases c i).mpr hc)]
      omega
    · rw [if_neg hc,
        if_neg (fun hh => hc ((getLetterCases c i).mp hh))]
      omega

theorem histFold_length (Data : List Nat) (h : List Nat) :
    (Data.foldl histStep h).length = h.length := by
  induction Data generalizing h with
  | nil => rfl
  | cons c t ih => simp only [List.foldl_cons]; rw [ih, histStep_length]

theorem Histogram_length (Data : List Nat) : (Histogram Data).length = 26 := by
  unfold Histogram
  rw [histFold_length]
  simp

/-- Bucket `i` of `Histogram` counts letter `'a'+i` case-insensitively. -/
theorem Histogram_bucket (Data : List Nat) (i : Nat) (hi : i < 26) :
    (Histogram Data).getD i 0 = countLetter Data i := by
  unfold Histogram
  rw [histFold_getD Data _ (by simp) i hi, getD_replicate_self]
  omega

theorem tolower_idx_lt (c : Nat) (h : isalpha c = true) :
    tolower c - 97 < 26 := by
  have hrange : (65 ≤ c ∧ c ≤ 90) ∨ (97 ≤ c ∧ c ≤ 122) := by
    simp [isalpha] at h; omega
  rcases hrange with h1 | h2
  · rw [tolower_of_upper c h1.1 h1.2]; omega
  · rw [tolower_of_not_upper c (by omega)]; omega

theorem sum_set_getD (l : List Nat) (i k : Nat) (hi : i < l.length) :
    (l.set i (l.getD i 0 + k)).sum = l.sum + k := by
  induction l generalizing i with
  | nil => simp at hi
  | cons a t ih =>
    cases i with
    | zero => simp [List.set]; omega
    | succ j =>
      simp only [List.set, List.getD_cons_succ, List.sum_cons]
      rw [ih j (by simpa using hi)]
      omega

theorem histStep_sum (h : List Nat) (c : Nat) (hlen : h.length = 26) :
    (histStep h c).sum = h.sum + (if isalpha c then 1 else 0) := by
  unfold histStep
  by_cases halpha : isalpha c = true
  · rw [if_pos halpha, if_pos halpha,
      sum_set_getD h _ 1 (by rw [hlen]; exact tolower_idx_lt c halpha)]
  · rw [if_neg halpha, if_neg halpha]
    omega

theorem histFold_sum (Data : List Nat) (h : List Nat) (hlen : h.length = 26) :
    (Data.foldl histStep h).sum = h.sum + Data.countP isalpha := by
  induction Data generalizing h with
  | nil => simp
  | cons c t ih =>
    simp only [List.foldl_cons]
    rw [ih (histStep h c) (by rw [histStep_length]; exact hlen),
      histStep_sum h c hlen, List.countP_cons]
    by_cases halpha : isalpha c = true
    · rw [if_pos halpha]; omega
    · rw [if_neg halpha]; omega

theorem toggleCase_isalpha (c : Nat) :
    isalpha (toggleCase c) = isalpha c ∧ tolower (toggleCase c) = tolower c := by
  unfold toggleCase
  by_cases h1 : 65 ≤ c ∧ c ≤ 90
  · rw [if_pos (by simp only [Bool.and_eq_true, decide_eq_true_eq]; exact h1)]
    constructor
    · have ha : isalpha (c + 32) = true := by simp [isalpha]; omega
      have hb : isalpha c = true := by simp [isalpha]; omega
      rw [ha, hb]
    · rw [tolower_of_not_upper (c + 32) (by omega), tolower_of_upper c h1.1 h1.2]
  · rw [if_neg (by simp only [Bool.and_eq_true, decide_eq_true_eq]; exact h1)]
    by_cases h2 : 97 ≤ c ∧ c ≤ 122
    · rw [if_pos (by simp only [Bool.and_eq_true, decide_eq_true_eq]; exact h2)]
      constructor
      · have ha : isalpha (c - 32) = true := by simp [isalpha]; omega
        have hb : isalpha c = true := by simp [isalpha]; omega
        rw [ha, hb]
      · rw [tolower_of_upper (c - 32) (by omega) (by omega),
          tolower_of_not_upper c (by omega)]
        omega
    · rw [if_neg (by simp only [Bool.and_eq_true, decide_eq_true_eq]; exact h2)]
      exact ⟨rfl, rfl⟩

theorem histStep_toggleCase (h : List Nat) (c : Nat) :
    histStep h (toggleCase c) = histStep h c := by
  unfold histStep
  rw [(toggleCase_isalpha c).1, (toggleCase_isalpha c).2]

theorem histFold_set_toggle (Data : List Nat) (init : List Nat) (j : Nat)
    (hj : j < Data.length) :
    ((Data.set j (toggleCase (Data.getD j 0))).foldl histStep init) =
      Data.foldl histStep init := by
  induction Data generalizing j init with
  | nil => simp at hj
  | cons a t ih =>
    cases j with
    | zero =>
      simp only [List.set, List.getD_cons_zero, List.foldl_cons]
      rw [histStep_toggleCase]
    | succ m =>
      simp only [List.set, List.getD_cons_succ, List.foldl_cons]
      exact ih (histStep init a) m (by simpa using hj)

/-- C1: `Histogram` returns a 26-element table whose bucket `i` counts the
bytes equal to letter `'a'+i` in either case; non-alphabetic bytes land in
no bucket (every byte counted is a letter byte), and the empty buffer
yields all zeros. -/
theorem histogram_correct (Data : List Nat) :
    (Histogram Data).length = 26 ∧
    (∀ i, i < 26 → (Histogram Data).getD i 0 = countLetter Data i) ∧
    Histogram [] = List.replicate 26 0 :=
  ⟨Histogram_length Data, fun i hi => Histogram_bucket Data i hi, rfl⟩

/-- Witness for C1 at the buffer "Hi!" (`[72, 105, 33]`) and bucket 7. -/
theorem histogram_correct_w :
    (Histogram [72, 105, 33]).getD 7 0 = countLetter [72, 105, 33] 7 ∧
    countLetter [72, 105, 33] 7 = 1 :=
  ⟨(histogram_correct [72, 105, 33]).2.1 7 (by decide), by decide⟩

/-- C2: the buckets of `Histogram` sum to the number of alphabetic bytes,
and the result is unchanged when any single byte is replaced by its
other-case counterpart. -/
theorem histogram_sum_case_invariant (Data : List Nat) :
    (Histogram Data).sum = Data.countP isalpha ∧
    (∀ j, j < Data.length →
      Histogram (Data.set j (toggleCase (Data.getD j 0))) = Histogram Data) := by
  constructor
  · unfold Histogram
    rw [histFold_sum Data _ (by simp)]
    simp
  · intro j hj
    unfold Histogram
    exact histFold_set_toggle Data _ j hj

/-- Witness for C2 at the buffer "Ab!" (`[65, 98, 33]`), toggling index 0. -/
theorem histogram_sum_case_invariant_w :
    (Histogram [65, 98, 33]).sum = List.countP isalpha [65, 98, 33] ∧
    Histogram (List.set [65, 98, 33] 0 (toggleCase 65)) = Histogram [65, 98, 33] :=
  ⟨(histogram_sum_case_invariant [65, 98, 33]).1,
   (histogram_sum_case_invariant [65, 98, 33]).2 0 (by decide)⟩

/-! ## Completion notifier (`sigchld`, `parallel.c` lines 29-90)

One `waitpid` iteration of the handler is `handleOne`; the
`while (waitpid(...) > 0)` drain loop is `drain`.  A reaped child is an
`Event`: its pid, its wait-status disposition, the bytes available on its
pipe's read end (`[]` models a zero-byte `read`), and whether the
`open("file<pid>.hist", ...)` the handler would perform succeeds. -/

/-- Wait-status disposition of a reaped child: `WIFEXITED` with an exit
code, or `WIFSIGNALED`. -/
inductive Disposition where
  | exited (code : Nat)
  | signaled
  deriving DecidableEq, Repr

/-- One reaped termination as seen by the handler. -/
structure Event where
  pid : Nat
  status : Disposition
  pipeData : List Nat
  outOpenOk : Bool
  deriving DecidableEq, Repr

/-- The pid→pipe lookup of lines 46-51: the first index `i` with
`pids[i] == child_pid`, scanning from `i = 0`. -/
def findPid : List Nat → Nat → Option Nat
  | [], _ => none
  | p :: rest, pid =>
    if p == pid then some 0 else (findPid rest pid).map (· + 1)

/-- `sprintf(line, "%c=%d\n", letter, count)` (line 70), as a character
list. -/
def mkLine (letter : Nat) (count : Nat) : List Char :=
  Char.ofNat letter :: '=' :: (Nat.repr count).toList ++ ['\n']

/-- The `for (letter = 'a'; letter <= 'z'; letter++)` loop of lines 68-72:
one line per letter byte from `letter` up to `'z'` (122), each reading
bucket `letter - 'a'` of the received counts. -/
def histLinesFrom (counts : List Nat) (letter : Nat) : List (List Char) :=
  if h : letter ≤ 122 then
    mkLine letter (counts.getD (letter - 97) 0) :: histLinesFrom counts (letter + 1)
  else []
termination_by 123 - letter

/-- The lines written to `file<pid>.hist`, starting at `'a'` (97). -/
def histLines (counts : List Nat) : List (List Char) :=
  histLinesFrom counts 97

/-- What one `handleOne` invocation did. -/
structure NotifyResult where
  /-- `some (filename, lines)` when a histogram file was written. -/
  persisted : Option (String × List (List Char))
  /-- Whether `close(pipes[curPipe][0])` (line 76) ran. -/
  closedReadEnd : Bool
  /-- Whether the handler called `exit(EXIT_FAILURE)` (line 64). -/
  aborted : Bool
  /-- Whether line 78 ("pipe not found") was reported. -/
  lookupMiss : Bool
  deriving DecidableEq, Repr

/-- The body of one drain-loop iteration (lines 38-82), after the
`numTerminated++` of line 39: dispatch on the disposition, look up the
pipe, read, persist, close. -/
def handleOne (table : List Nat) (e : Event) : NotifyResult :=
  match e.status with
  | Disposition.signaled => ⟨none, false, false, false⟩
  | Disposition.exited _ =>
    match findPid table e.pid with
    | none => ⟨none, false, false, true⟩
    | some _ =>
      if e.pipeData.length > 0 then
        if e.outOpenOk then
          ⟨some ("file" ++ toString e.pid ++ ".hist",
            histLines e.pipeData), true, false, false⟩
        else
          ⟨none, false, true, false⟩
      else
        ⟨none, true, false, false⟩

/-- The drain loop (lines 37-83) over the pending terminations: returns
the final `numTerminated`, the per-event results in order, and whether the
handler aborted the process.  `exit(EXIT_FAILURE)` (line 64) stops the
whole process, so no later event is handled after an abort. -/
def drain (table : List Nat) (events : List Event) (t : Nat) :
    Nat × List NotifyResult × Bool :=
  match events with
  | [] => (t, [], false)
  | e :: rest =>
    let r := handleOne table e
    if r.aborted then (t + 1, [r], true)
    else
      let d := drain table rest (t + 1)
      (d.1, r :: d.2.1, d.2.2)

/-! ## Child and supervisor control flow (`main`, lines 120-219)

The observable actions of a process, in program order.  `Act.closeWrite`
is the child closing its own pipe's write end; `Act.parentCloseWrite` is
a process acting as spawner closing its copy of a freshly created pipe's
write end (line 200). -/

/-- Observable actions of the program. -/
inductive Act where
  | registerHandler
  | pipeCreate
  | forkChild
  | parentCloseWrite
  | sendInt
  | closeRead
  | openInput
  | loadFile
  | computeHist
  | transmit (h : List Nat)
  | closeWrite
  | sleepAct
  | exitWith (code : Nat)
  | killedBySignal
  deriving DecidableEq, Repr

/-- A command-line argument: a file path whose contents are `some data`
(or `none` if the file cannot be opened), or the literal token `"SIG"`. -/
inductive Arg where
  | file (contents : Option (List Nat))
  | SIG
  deriving DecidableEq, Repr

/-- The spawner-side actions of the `for` loop over arguments
(lines 141-210): per argument, create the pipe (145), fork (150), close
the parent's write end (200), and send `SIGINT` if the argument is `"SIG"`
(205-208). -/
def supervisorLoopActs : List Arg → List Act
  | [] => []
  | a :: rest =>
    Act.pipeCreate :: Act.forkChild :: Act.parentCloseWrite ::
      (match a with
        | Arg.SIG => [Act.sendInt]
        | Arg.file _ => []) ++ supervisorLoopActs rest

/-- The child-side actions after `fork` returns 0 (lines 154-197), for
the child spawned on argument `a`. `interrupted` tells whether the
`SIGINT` sent by the parent arrives before the `"SIG"` child's
`sleep(10)` expires; `rest` is the argument list beyond `a`.  The
`"SIG"` branch (lines 194-197) has no `exit` call, so when the child
survives the signal it falls out of the `if` and continues the `for`
loop over the remaining arguments as a spawner. -/
def childActs (a : Arg) (interrupted : Bool) (rest : List Arg) : List Act :=
  Act.closeRead ::
    (match a with
      | Arg.file none => [Act.openInput, Act.closeWrite, Act.exitWith 1]
      | Arg.file (some d) =>
        [Act.openInput, Act.loadFile, Act.computeHist,
          Act.transmit (Histogram d), Act.sleepAct, Act.closeWrite,
          Act.exitWith 0]
      | Arg.SIG =>
        if interrupted then [Act.killedBySignal]
        else Act.sleepAct :: supervisorLoopActs rest)

/-- `MAX_FILES` (line 13). -/
def MAX_FILES : Nat := 100

/-- The supervisor's exit status as fixed by the argument validation of
lines 124-131 (`EXIT_FAILURE = 1`) and the `return 0` of line 219. -/
def mainExitCode (args : List Arg) : Nat :=
  if args.length = 0 then 1
  else if args.length > MAX_FILES then 1
  else 0

/-- The supervisor's action trace: the validation of lines 124-131 exits
before the handler registration (line 138) and before any `pipe` or
`fork`; otherwise the handler is registered and the spawn loop runs. -/
def mainActs (args : List Arg) : List Act :=
  if args.length = 0 then []
  else if args.length > MAX_FILES then []
  else Act.registerHandler :: supervisorLoopActs args

/-! ## Shared counters (`numChildren` / `numTerminated`, lines 22-23)

The supervisor's spawn loop runs `fork()` (line 150) and later
`numChildren++` (line 202); the `SIGCHLD` handler may preempt it at any
statement boundary and run `numTerminated++` (line 39) once per reaped
child.  `forked` counts completed `fork()` calls; only actually forked
children can be reaped, and `numChildren++` runs exactly once after each
`fork()` before the next one. -/

/-- The shared-counter state: children actually forked so far, the value
of `numChildren`, and the value of `numTerminated`. -/
structure Counters where
  forked : Nat
  children : Nat
  terminated : Nat
  deriving DecidableEq, Repr

/-- Interleaved steps of the spawn loop and the handler. -/
inductive CStep : Counters → Counters → Prop where
  /-- `fork()` (line 150); program order puts it after the previous
  iteration's `numChildren++`. -/
  | fork (s : Counters) (h : s.children = s.forked) :
      CStep s ⟨s.forked + 1, s.children, s.terminated⟩
  /-- `numChildren++` (line 202), once per completed fork. -/
  | countChild (s : Counters) (h : s.children < s.forked) :
      CStep s ⟨s.forked, s.children + 1, s.terminated⟩
  /-- `numTerminated++` (line 39) in the handler, once per reaped child;
  only forked children can terminate and be reaped. -/
  | reap (s : Counters) (h : s.terminated < s.forked) :
      CStep s ⟨s.forked, s.children, s.terminated + 1⟩

/-- Counter states reachable from program start. -/
inductive Reachable : Counters → Prop where
  | init : Reachable ⟨0, 0, 0⟩
  | step {s s' : Counters} : Reachable s → CStep s s' → Reachable s'

/-- The exit test of the wait loop `while (numTerminated < numChildren)`
(line 214): the loop is done when the condition fails. -/
def waitLoopDone (s : Counters) : Bool :=
  s.children ≤ s.terminated

theorem counters_inv (s : Counters) (h : Reachable s) :
    s.terminated ≤ s.forked ∧ s.children ≤ s.forked := by
  induction h with
  | init => exact ⟨Nat.le_refl 0, Nat.le_refl 0⟩
  | step _ hstep ih =>
    cases hstep with
    | fork h => exact ⟨Nat.le_succ_of_le ih.1, Nat.le_succ_of_le ih.2⟩
    | countChild h => exact ⟨ih.1, h⟩
    | reap h => exact ⟨h, ih.2⟩

/-! ## Lines of the persisted histogram file -/

theorem histLinesFrom_eq (counts : List Nat) (n : Nat) :
    ∀ letter, letter + n = 123 →
      histLinesFrom counts letter =
        (List.range n).map
          (fun j => mkLine (letter + j) (counts.getD (letter + j - 97) 0)) := by
  induction n with
  | zero =>
    intro letter h
    rw [histLinesFrom, dif_neg (by omega)]
    simp
  | succ m ih =>
    intro letter h
    rw [histLinesFrom, dif_pos (by omega), ih (letter + 1) (by omega),
      List.range_succ_eq_map]
    simp only [List.map_cons, List.map_map, Nat.add_zero]
    refine List.cons_eq_cons.mpr ⟨by simp, ?_⟩
    apply List.map_congr_left
    intro j _
    simp only [Function.comp_apply]
    have h1 : letter + (j + 1) = letter + 1 + j := by omega
    rw [h1]

theorem histLines_eq (counts : List Nat) :
    histLines counts =
      (List.range 26).map (fun j => mkLine (97 + j) (counts.getD (97 + j - 97) 0)) :=
  histLinesFrom_eq counts 26 97 rfl

theorem histLines_length (counts : List Nat) : (histLines counts).length = 26 := by
  rw [histLines_eq]
  simp

theorem histLines_getD (counts : List Nat) (i : Nat) (hi : i < 26) :
    (histLines counts).getD i [] = mkLine (97 + i) (counts.getD i 0) := by
  rw [histLines_eq, List.getD, List.get?_map, List.get?_range hi]
  simp

theorem mkLine_getLast (letter count : Nat) :
    (mkLine letter count).getLast? = some '\n' := by
  unfold mkLine
  rw [show Char.ofNat letter :: '=' :: (Nat.repr count).toList ++ ['\n'] =
      (Char.ofNat letter :: '=' :: (Nat.repr count).toList) ++ ['\n'] by simp]
  exact List.getLast?_concat _

theorem findPid_isSome_iff (table : List Nat) (pid : Nat) :
    (findPid table pid).isSome = true ↔ pid ∈ table := by
  induction table with
  | nil => simp [findPid]
  | cons p rest ih =>
    by_cases h : p = pid
    · simp [findPid, h]
    · rw [findPid, if_neg (by simpa using h)]
      simp only [Option.isSome_map', List.mem_cons]
      rw [ih]
      constructor
      · exact fun hm => Or.inr hm
      · rintro (hm | hm)
        · exact absurd hm.symm h
        · exact hm

theorem findPid_eq_none (table : List Nat) (pid : Nat) (h : pid ∉ table) :
    findPid table pid = none := by
  have h2 : ¬ (findPid table pid).isSome = true :=
    fun hs => h ((findPid_isSome_iff table pid).mp hs)
  cases hf : findPid table pid with
  | none => rfl
  | some i => rw [hf] at h2; simp at h2

/-! ## Claim theorems -/

/-- C3, counterexample: the claimed invariant `numTerminated ≤ numChildren`
fails on the code as written.  The handler is armed (line 138) before the
spawn loop, and `SIGCHLD` may be delivered between the `fork()` of
line 150 and the `numChildren++` of line 202; if the first child dies at
once, the handler's `numTerminated++` runs while `numChildren` is still 0,
reaching the state (forked 1, numChildren 0, numTerminated 1). -/
theorem counters_claim_false :
    Reachable ⟨1, 0, 1⟩ ∧
      ¬ ((⟨1, 0, 1⟩ : Counters).terminated ≤ (⟨1, 0, 1⟩ : Counters).children) :=
  ⟨Reachable.step (Reachable.step Reachable.init (CStep.fork ⟨0, 0, 0⟩ rfl))
      (CStep.reap ⟨1, 0, 0⟩ (by decide)),
   by decide⟩

/-- C3, amended: in every reachable counter state, `numTerminated` and
`numChildren` are bounded by the number of completed forks (so
`numTerminated ≤ numChildren` does hold whenever the spawn loop is not
between a `fork()` and its `numChildren++`, in particular throughout the
wait loop, where `numChildren` equals the fork count); and once
`numChildren` has caught up with the forks, the wait loop of line 214
is done exactly when `numTerminated == numChildren` — it never exits
early. -/
theorem counters_wait_loop (s : Counters) (h : Reachable s) :
    s.terminated ≤ s.forked ∧ s.children ≤ s.forked ∧
      (s.children = s.forked →
        (waitLoopDone s = true ↔ s.terminated = s.children)) := by
  obtain ⟨h1, h2⟩ := counters_inv s h
  refine ⟨h1, h2, fun hc => ?_⟩
  unfold waitLoopDone
  simp only [decide_eq_true_eq]
  omega

/-- Witness for C3 at the reachable state (forked 1, numChildren 1,
numTerminated 0): the wait loop is not done and the counters differ. -/
theorem counters_wait_loop_w :
    waitLoopDone ⟨1, 1, 0⟩ = false ∧
      ((waitLoopDone ⟨1, 1, 0⟩ = true) ↔
        ((⟨1, 1, 0⟩ : Counters).terminated = (⟨1, 1, 0⟩ : Counters).children)) :=
  ⟨by decide,
   (counters_wait_loop ⟨1, 1, 0⟩
      (Reachable.step (Reachable.step Reachable.init (CStep.fork ⟨0, 0, 0⟩ rfl))
        (CStep.countChild ⟨1, 0, 0⟩ (by decide)))).2.2 rfl⟩

/-- C4: a worker whose file cannot be opened closes its write end, exits
with code 1 and transmits nothing (lines 161-166); the notifier, reading
zero bytes from that worker's pipe, persists nothing, closes the read end
and neither aborts nor reports a miss (lines 54-76); and the drain loop
still counts the termination and goes on to process every sibling
termination unchanged. -/
theorem worker_open_fail_isolated (table : List Nat) (pid : Nat) (k : Bool)
    (rest : List Arg) (events : List Event) (ok : Bool) (t : Nat)
    (hpid : pid ∈ table) :
    childActs (Arg.file none) k rest =
      [Act.closeRead, Act.openInput, Act.closeWrite, Act.exitWith 1] ∧
    (∀ d : List Nat, Act.transmit d ∉ childActs (Arg.file none) k rest) ∧
    handleOne table ⟨pid, Disposition.exited 1, [], ok⟩ =
      ⟨none, true, false, false⟩ ∧
    drain table (⟨pid, Disposition.exited 1, [], ok⟩ :: events) t =
      ((drain table events (t + 1)).1,
        ⟨none, true, false, false⟩ :: (drain table events (t + 1)).2.1,
        (drain table events (t + 1)).2.2) := by
  obtain ⟨i, hi⟩ :=
    Option.isSome_iff_exists.mp ((findPid_isSome_iff table pid).mpr hpid)
  have h1 : handleOne table ⟨pid, Disposition.exited 1, [], ok⟩ =
      ⟨none, true, false, false⟩ := by
    simp [handleOne, hi]
  refine ⟨rfl, fun d => by simp [childActs], h1, ?_⟩
  rw [drain]
  simp [h1]

/-- Witness for C4 with pid table `[7]`, reaping pid 7. -/
theorem worker_open_fail_isolated_w :
    handleOne [7] ⟨7, Disposition.exited 1, [], true⟩ =
      ⟨none, true, false, false⟩ :=
  (worker_open_fail_isolated [7] 7 true [] [] true 0 (by decide)).2.2.1

/-- C5: with zero arguments or more than `MAX_FILES` arguments, `main`
exits with status 1 (`EXIT_FAILURE`, lines 124-131) and its trace is
empty: no pipe is created and no process is forked. -/
theorem config_error_no_spawn (args : List Arg)
    (h : args.length = 0 ∨ args.length > MAX_FILES) :
    mainExitCode args = 1 ∧ mainActs args = [] ∧
      Act.pipeCreate ∉ mainActs args ∧ Act.forkChild ∉ mainActs args := by
  rcases h with h | h
  · simp [mainExitCode, mainActs, h]
  · have h0 : ¬ args.length = 0 := by unfold MAX_FILES at h; omega
    simp [mainExitCode, mainActs, h0, h]

/-- Witness for C5 at the empty argument list. -/
theorem config_error_no_spawn_w :
    mainExitCode [] = 1 ∧ mainActs [] = [] ∧
      Act.pipeCreate ∉ mainActs [] ∧ Act.forkChild ∉ mainActs [] :=
  config_error_no_spawn [] (Or.inl rfl)

/-- C6: for a normally-exited worker found in the pid table whose pipe
held data, the notifier persists exactly one file, named
`file<pid>.hist` from the worker's pid (line 60), whose content is 26
newline-terminated lines; line `i` is `<letter>=<count>` for letter
`'a'+i` — alphabetical order — with the count taken from bucket `i` of
the received histogram (lines 68-72). -/
theorem persist_format (table : List Nat) (pid code : Nat) (d : List Nat)
    (hpid : pid ∈ table) (hd : d ≠ []) :
    handleOne table ⟨pid, Disposition.exited code, d, true⟩ =
      ⟨some ("file" ++ toString pid ++ ".hist", histLines d),
        true, false, false⟩ ∧
    (histLines d).length = 26 ∧
    (∀ i, i < 26 → (histLines d).getD i [] =
      Char.ofNat (97 + i) :: '=' :: (Nat.repr (d.getD i 0)).toList ++ ['\n']) ∧
    (∀ line ∈ histLines d, line.getLast? = some '\n') := by
  obtain ⟨i, hi⟩ :=
    Option.isSome_iff_exists.mp ((findPid_isSome_iff table pid).mpr hpid)
  refine ⟨?_, histLines_length d, ?_, ?_⟩
  · simp [handleOne, hi, List.length_pos.mpr hd]
  · intro j hj
    rw [histLines_getD d j hj]
    rfl
  · intro line hline
    rw [histLines_eq] at hline
    obtain ⟨j, _, hj⟩ := List.mem_map.mp hline
    rw [← hj]
    exact mkLine_getLast _ _

/-- Witness for C6: the spec's "AbcAbc" scenario, pid 5 in table `[5]`:
the persisted file is `file5.hist` and buckets a, b, c hold 2. -/
theorem persist_format_w :
    handleOne [5] ⟨5, Disposition.exited 0, Histogram [65, 98, 99, 65, 98, 99], true⟩ =
      ⟨some ("file" ++ toString (5 : Nat) ++ ".hist",
        histLines (Histogram [65, 98, 99, 65, 98, 99])), true, false, false⟩ ∧
    (Histogram [65, 98, 99, 65, 98, 99]).getD 0 0 = 2 :=
  ⟨(persist_format [5] 5 0 (Histogram [65, 98, 99, 65, 98, 99])
      (by decide) (by decide)).1,
   by decide⟩

/-- C7: the claim is right and the code is wrong.  The `"SIG"` branch of
the child (lines 194-197) has no `exit` call: a `"SIG"` child that
survives the parent's `SIGINT` (the spec's "times out" outcome) falls out
of the `if`/`else` after `sleep(10)` and continues the `for` loop over
the remaining arguments as a spawner — here, with one file argument left,
it creates a pipe and forks a further process, which the claim rules out.
The interrupted outcome does conform (last conjunct). -/
theorem sig_child_timeout_spawns :
    Act.forkChild ∈ childActs Arg.SIG false [Arg.file none] ∧
    Act.pipeCreate ∈ childActs Arg.SIG false [Arg.file none] ∧
    Act.forkChild ∉ childActs Arg.SIG true [Arg.file none] := by
  refine ⟨by decide, by decide, by decide⟩

/-- C8: a normally-exited pid absent from the table is a report-only
condition (line 78): nothing is persisted, nothing closed, no abort —
and the drain loop still counts the termination (line 39, before the
lookup) and handles all remaining terminations exactly as it would
otherwise. -/
theorem lookup_miss_report_only (table : List Nat) (pid code : Nat)
    (d : List Nat) (ok : Bool) (events : List Event) (t : Nat)
    (hpid : pid ∉ table) :
    handleOne table ⟨pid, Disposition.exited code, d, ok⟩ =
      ⟨none, false, false, true⟩ ∧
    drain table (⟨pid, Disposition.exited code, d, ok⟩ :: events) t =
      ((drain table events (t + 1)).1,
        ⟨none, false, false, true⟩ :: (drain table events (t + 1)).2.1,
        (drain table events (t + 1)).2.2) := by
  have hf := findPid_eq_none table pid hpid
  have h1 : handleOne table ⟨pid, Disposition.exited code, d, ok⟩ =
      ⟨none, false, false, true⟩ := by
    simp [handleOne, hf]
  refine ⟨h1, ?_⟩
  rw [drain]
  simp [h1]

/-- Witness for C8: pid 5 reaped against the empty table. -/
theorem lookup_miss_report_only_w :
    handleOne [] ⟨5, Disposition.exited 0, [], true⟩ =
      ⟨none, false, false, true⟩ :=
  (lookup_miss_report_only [] 5 0 [] true [] 0 (by decide)).1

/-- C9, counterexample: "each endpoint is closed exactly once in every
execution path" fails on three paths.  A `"SIG"` child killed by the
parent's `SIGINT` never executes a `close` on its write end (the child
branch of lines 194-197 contains none); the handler closes the read end
only inside the `WIFEXITED` branch with a successful lookup (line 76), so
a signaled child's read end is never closed, nor is the read end on a
lookup miss. -/
theorem endpoint_close_claim_false :
    (childActs Arg.SIG true []).count Act.closeWrite = 0 ∧
    (handleOne [5] ⟨5, Disposition.signaled, [], true⟩).closedReadEnd = false ∧
    (handleOne [] ⟨5, Disposition.exited 0, [], true⟩).closedReadEnd = false := by
  refine ⟨by decide, rfl, ?_⟩
  have hf : findPid [] 5 = none := rfl
  simp [handleOne, hf]

/-- C9, amended: a non-`"SIG"` worker closes its write end exactly once
on both the open-failure path (line 164) and the success path (line 192);
a `"SIG"` worker never explicitly closes its write end; and the
supervisor's handler closes the read end exactly once precisely when the
child exited normally, its pid is in the table, and — if data was read —
the output file opened (otherwise the handler exits first, line 64).  On
the lookup-miss, abnormal-termination and `"SIG"` paths the endpoint is
not closed. -/
theorem supervisorLoopActs_no_closeWrite (args : List Arg) :
    (supervisorLoopActs args).count Act.closeWrite = 0 := by
  induction args with
  | nil => rfl
  | cons a rest ih =>
    cases a with
    | SIG =>
      simp only [supervisorLoopActs, List.count_cons, List.count_append]
      rw [ih]
      decide
    | file d =>
      simp only [supervisorLoopActs, List.count_cons, List.count_append]
      rw [ih]
      decide

theorem endpoint_close_amended (table : List Nat) (e : Event)
    (d : Option (List Nat)) (k : Bool) (rest : List Arg) :
    (childActs (Arg.file d) k rest).count Act.closeWrite = 1 ∧
    (childActs Arg.SIG k rest).count Act.closeWrite = 0 ∧
    ((handleOne table e).closedReadEnd = true ↔
      ((∃ c, e.status = Disposition.exited c) ∧ e.pid ∈ table ∧
        (e.pipeData ≠ [] → e.outOpenOk = true))) := by
  have hsig : (childActs Arg.SIG k rest).count Act.closeWrite = 0 := by
    cases k with
    | true => rfl
    | false =>
      simp only [childActs]
      rw [if_neg (by decide : ¬ (false = true))]
      simp only [List.count_cons]
      rw [supervisorLoopActs_no_closeWrite]
      decide
  refine ⟨by cases d <;> rfl, hsig, ?_⟩
  obtain ⟨pid, st, data, ok⟩ := e
  cases st with
  | signaled =>
    simp [handleOne]
  | exited c =>
    cases hf : findPid table pid with
    | none =>
      have hnm : pid ∉ table := fun hm => by
        have := (findPid_isSome_iff table pid).mpr hm
        rw [hf] at this
        simp at this
      simp [handleOne, hf, hnm]
    | some i =>
      have hmem : pid ∈ table :=
        (findPid_isSome_iff table pid).mp (by rw [hf]; rfl)
      by_cases hd : data.length > 0
      · have hne : data ≠ [] := by
          intro hnil
          rw [hnil] at hd
          simp at hd
        cases ok with
        | true => simp [handleOne, hf, hd, hmem, hne]
        | false => simp [handleOne, hf, hd, hmem, hne]
      · have hnil : data = [] := by
          cases data with
          | nil => rfl
          | cons a l => simp at hd
        subst hnil
        simp [handleOne, hf, hmem]

/-- Witness for C9 (amended) at a found, normally-exited event with data
and a working output open, plus the open-failure worker and the `"SIG"`
worker in both the interrupted and the timeout outcome. -/
theorem endpoint_close_amended_w :
    (childActs (Arg.file none) true []).count Act.closeWrite = 1 ∧
    (childActs Arg.SIG true [Arg.file none]).count Act.closeWrite = 0 ∧
    (childActs Arg.SIG false [Arg.file none]).count Act.closeWrite = 0 ∧
    ((handleOne [5] ⟨5, Disposition.exited 0, [1], true⟩).closedReadEnd = true ↔
      ((∃ c, Disposition.exited 0 = Disposition.exited c) ∧ (5 : Nat) ∈ [5] ∧
        (([1] : List Nat) ≠ [] → true = true))) :=
  ⟨(endpoint_close_amended [5] ⟨5, Disposition.exited 0, [1], true⟩ none true []).1,
   (endpoint_close_amended [5] ⟨5, Disposition.exited 0, [1], true⟩ none true
      [Arg.file none]).2.1,
   (endpoint_close_amended [5] ⟨5, Disposition.exited 0, [1], true⟩ none false
      [Arg.file none]).2.1,
   (endpoint_close_amended [5] ⟨5, Disposition.exited 0, [1], true⟩ none true []).2.2⟩

/-- C10: if the handler cannot open the output file for a received
histogram, it calls `exit(EXIT_FAILURE)` (lines 62-65): nothing is
persisted and the whole supervisor stops — the drain loop result records
the abort and no further termination is handled. -/
theorem output_open_fail_aborts (table : List Nat) (pid code : Nat)
    (d : List Nat) (events : List Event) (t : Nat)
    (hpid : pid ∈ table) (hd : d ≠ []) :
    handleOne table ⟨pid, Disposition.exited code, d, false⟩ =
      ⟨none, false, true, false⟩ ∧
    drain table (⟨pid, Disposition.exited code, d, false⟩ :: events) t =
      (t + 1, [⟨none, false, true, false⟩], true) := by
  obtain ⟨i, hi⟩ :=
    Option.isSome_iff_exists.mp ((findPid_isSome_iff table pid).mpr hpid)
  have h1 : handleOne table ⟨pid, Disposition.exited code, d, false⟩ =
      ⟨none, false, true, false⟩ := by
    simp [handleOne, hi, List.length_pos.mpr hd]
  refine ⟨h1, ?_⟩
  rw [drain]
  simp [h1]

/-- Witness for C10: pid 5 in table `[5]` with one byte of pipe data and
a failing output open. -/
theorem output_open_fail_aborts_w :
    drain [5] [⟨5, Disposition.exited 0, [1], false⟩] 0 =
      (1, [⟨none, false, true, false⟩], true) :=
  (output_open_fail_aborts [5] 5 0 [1] [] 0 (by decide) (by decide)).2
